import Mathlib

/-!
# BB84 quantum key distribution notebook — shallow embedding

This file embeds the protocol logic of the BB84 notebook
(`src/notebooks/BB84.ipynb`): random bit-string generation (cell-3),
circuit construction `make_bb84_circ` (cell-5), and the key sifting loop
and key statistics (cell-7).  Circuits are lists of abstract instructions;
Python sequences are Lean lists of naturals; Python exceptions are an
`Except` error type.
-/

namespace BB84

/-- The runtime errors relevant to the notebook: `valueError` stands for
NumPy's `ValueError` (the spec's InvalidArgument), `indexError` for a
Python out-of-range indexing error, and `circuitError` for Qiskit's
`CircuitError` raised when a gate targets a qubit index out of range. -/
inductive Err where
  | valueError
  | indexError
  | circuitError
deriving DecidableEq, Repr

/-- A single circuit instruction: an X gate on qubit `q`, an H gate on
qubit `q`, a barrier (`bb84_circ.barrier()`), or the full measurement of
all qubits (`bb84_circ.measure_all()`). -/
inductive Instr where
  | x (q : Nat)
  | h (q : Nat)
  | barrier
  | measureAll
deriving DecidableEq, Repr

/-- A quantum circuit as built by `make_bb84_circ`: its qubit count
(`QuantumCircuit(num_qubits)`) and its instruction list in append order. -/
structure Circuit where
  numQubits : Nat
  instrs : List Instr
deriving DecidableEq, Repr

/-- Python sequence indexing `xs[i]` for a non-negative index: returns the
element or raises `IndexError` when `i` is out of range. -/
def pyGet (xs : List Nat) (i : Nat) : Except Err Nat :=
  match xs[i]? with
  | some v => Except.ok v
  | none => Except.error Err.indexError

/-- `bb84_circ.x(index)`: Qiskit appends an X gate on qubit `index`, or
raises `CircuitError` when `index` is not a qubit of the circuit. -/
def applyX (numQubits index : Nat) : Except Err (List Instr) :=
  if index < numQubits then Except.ok [Instr.x index] else Except.error Err.circuitError

/-- `bb84_circ.h(index)`: Qiskit appends an H gate on qubit `index`, or
raises `CircuitError` when `index` is not a qubit of the circuit. -/
def applyH (numQubits index : Nat) : Except Err (List Instr) :=
  if index < numQubits then Except.ok [Instr.h index] else Except.error Err.circuitError

/-- The sender-preparation loop body of `make_bb84_circ`, run over a list
of indices: for each `index`, read `enc_state[index]`, append an X gate
when it equals 1, read `enc_basis[index]`, append an H gate when it
equals 1.  Evaluation order matches the Python source. -/
def senderPrep (numQubits : Nat) (enc_state enc_basis : List Nat) :
    List Nat → Except Err (List Instr)
  | [] => Except.ok []
  | index :: rest =>
    match pyGet enc_state index with
    | Except.error e => Except.error e
    | Except.ok s =>
      match (if s = 1 then applyX numQubits index else Except.ok []) with
      | Except.error e => Except.error e
      | Except.ok xops =>
        match pyGet enc_basis index with
        | Except.error e => Except.error e
        | Except.ok b =>
          match (if b = 1 then applyH numQubits index else Except.ok []) with
          | Except.error e => Except.error e
          | Except.ok hops =>
            match senderPrep numQubits enc_state enc_basis rest with
            | Except.error e => Except.error e
            | Except.ok tail => Except.ok (xops ++ hops ++ tail)

/-- The receiver-measurement loop body of `make_bb84_circ`, run over a
list of indices: for each `index`, read `meas_basis[index]` and append an
H gate when it equals 1. -/
def receiverMeas (numQubits : Nat) (meas_basis : List Nat) :
    List Nat → Except Err (List Instr)
  | [] => Except.ok []
  | index :: rest =>
    match pyGet meas_basis index with
    | Except.error e => Except.error e
    | Except.ok b =>
      match (if b = 1 then applyH numQubits index else Except.ok []) with
      | Except.error e => Except.error e
      | Except.ok hops =>
        match receiverMeas numQubits meas_basis rest with
        | Except.error e => Except.error e
        | Except.ok tail => Except.ok (hops ++ tail)

/-- `make_bb84_circ(enc_state, enc_basis, meas_basis)` from cell-5:
creates a circuit on `len(enc_state)` qubits, runs the sender preparation
loop over `range(len(enc_basis))`, appends a barrier, runs the receiver
measurement loop over `range(len(meas_basis))`, appends a barrier and a
full measurement. -/
def make_bb84_circ (enc_state enc_basis meas_basis : List Nat) : Except Err Circuit :=
  let num_qubits := enc_state.length
  match senderPrep num_qubits enc_state enc_basis (List.range enc_basis.length) with
  | Except.error e => Except.error e
  | Except.ok prep =>
    match receiverMeas num_qubits meas_basis (List.range meas_basis.length) with
    | Except.error e => Except.error e
    | Except.ok meas =>
      Except.ok ⟨num_qubits,
        prep ++ [Instr.barrier] ++ meas ++ [Instr.barrier, Instr.measureAll]⟩

/-- The per-qubit encoding operation sequence implied by the sender loop
body of `make_bb84_circ` for one `(stateBit, basisBit)` pair at qubit `q`:
an X gate exactly when `stateBit == 1`, then an H gate exactly when
`basisBit == 1`. -/
def encodingOps (stateBit basisBit q : Nat) : List Instr :=
  (if stateBit = 1 then [Instr.x q] else []) ++ (if basisBit = 1 then [Instr.h q] else [])

/-- The per-qubit measurement-basis-rotation sequence implied by the
receiver loop body of `make_bb84_circ` for one `basisBit` at qubit `q`:
an H gate exactly when `basisBit == 1`. -/
def measurementOps (basisBit q : Nat) : List Instr :=
  if basisBit = 1 then [Instr.h q] else []

/-- The key sifting loop of cell-7, run over a list of indices: for each
`i`, read `alice_basis[i]` and `bob_basis[i]`; when they are equal, read
`temp_key[i]` and append it to the key. -/
def siftLoop (alice_basis bob_basis temp_key : List Nat) :
    List Nat → Except Err (List Nat)
  | [] => Except.ok []
  | i :: rest =>
    match pyGet alice_basis i with
    | Except.error e => Except.error e
    | Except.ok a =>
      match pyGet bob_basis i with
      | Except.error e => Except.error e
      | Except.ok b =>
        if a = b then
          match pyGet temp_key i with
          | Except.error e => Except.error e
          | Except.ok o =>
            match siftLoop alice_basis bob_basis temp_key rest with
            | Except.error e => Except.error e
            | Except.ok tail => Except.ok (o :: tail)
        else siftLoop alice_basis bob_basis temp_key rest

/-- The sifting step of cell-7: iterate `i` over `range(num_qubits)` and
keep `temp_key[i]` exactly at the positions where Alice's and Bob's bases
match. -/
def sift (num_qubits : Nat) (alice_basis bob_basis temp_key : List Nat) :
    Except Err (List Nat) :=
  siftLoop alice_basis bob_basis temp_key (List.range num_qubits)

/-- The key statistics report printed by cell-7: the key's length, its
count of zeroes and its count of ones. -/
structure KeyReport where
  length : Nat
  zeroCount : Nat
  oneCount : Nat
deriving DecidableEq, Repr

/-- Cell-7's key statistics: `len(key)`, `key.count('0')`, `key.count('1')`. -/
def summarize (key : List Nat) : KeyReport :=
  ⟨key.length, key.count 0, key.count 1⟩

/-- `np.random.randint(2, size=n)` from cell-3, with the process-wide
random source made explicit as `rng`: NumPy raises `ValueError` for a
negative `size` and otherwise returns an array of `size` independent
draws from {0,1} (an empty array when `size = 0`). -/
def randint2 (rng : Nat → Nat) (size : Int) : Except Err (List Nat) :=
  if size < 0 then Except.error Err.valueError
  else Except.ok ((List.range size.toNat).map fun i => rng i % 2)

/-- Modelled from the spec: the external quantum simulator's outcome
string.  The per-qubit measurement results of one shot are an abstract
function `m` from qubit index to bit; the key returned by `get_counts()`
on an `n`-qubit `measure_all` circuit lists the classical bits with qubit
`n-1` leftmost and qubit `0` rightmost (the Qiskit bit-ordering
convention, library code not present under src/). -/
def countsKey (n : Nat) (m : Nat → Nat) : List Nat :=
  (List.range n).reverse.map m

/-- Modelled from the spec: `bb84_circ.reverse_bits()` (Qiskit library
code not present under src/) relabels qubit `q` of an `n`-qubit circuit
as qubit `n-1-q`, so the measured bit of relabeled qubit `q` is the bit
the original circuit measures on qubit `n-1-q`.  `temp_key` in cell-7 is
the counts key of this reversed circuit. -/
def temp_key (n : Nat) (m : Nat → Nat) : List Nat :=
  countsKey n (fun q => m (n - 1 - q))

/-- Whether an instruction only targets qubits below `n` (`barrier` and
`measure_all` target no single qubit index). -/
def idxOk (n : Nat) : Instr → Bool
  | Instr.x q => q < n
  | Instr.h q => q < n
  | Instr.barrier => true
  | Instr.measureAll => true

/-! ## Structure lemmas -/

/-- Reading index `i` of a list of length above `i` succeeds and returns
the `getD` value. -/
lemma pyGet_eq_getD (xs : List Nat) (i : Nat) (hi : i < xs.length) :
    pyGet xs i = Except.ok (xs.getD i 0) := by
  simp [pyGet, List.getElem?_eq_getElem hi, List.getD_eq_getElem?_getD]

/-- The sender-preparation loop over in-range indices succeeds and emits
the per-index encoding operations in order. -/
lemma senderPrep_eq (N : Nat) (st bs : List Nat) (hst : st.length = N)
    (hbs : bs.length = N) :
    ∀ idxs : List Nat, (∀ i ∈ idxs, i < N) →
      senderPrep N st bs idxs =
        Except.ok (idxs.flatMap fun i => encodingOps (st.getD i 0) (bs.getD i 0) i)
  | [], _ => by simp [senderPrep]
  | i :: rest, hidx => by
    have hi : i < N := hidx i (List.mem_cons_self i rest)
    have ih := senderPrep_eq N st bs hst hbs rest
      (fun j hj => hidx j (List.mem_cons_of_mem i hj))
    by_cases hs : st.getD i 0 = 1 <;> by_cases hb : bs.getD i 0 = 1 <;>
      simp [senderPrep, pyGet_eq_getD st i (hst ▸ hi), pyGet_eq_getD bs i (hbs ▸ hi),
        hs, hb, applyX, applyH, hi, ih, encodingOps, -List.getD_eq_getElem?_getD]

/-- The receiver-measurement loop over in-range indices succeeds and
emits the per-index measurement-rotation operations in order. -/
lemma receiverMeas_eq (N : Nat) (ms : List Nat) (hms : ms.length = N) :
    ∀ idxs : List Nat, (∀ i ∈ idxs, i < N) →
      receiverMeas N ms idxs =
        Except.ok (idxs.flatMap fun i => measurementOps (ms.getD i 0) i)
  | [], _ => by simp [receiverMeas]
  | i :: rest, hidx => by
    have hi : i < N := hidx i (List.mem_cons_self i rest)
    have ih := receiverMeas_eq N ms hms rest
      (fun j hj => hidx j (List.mem_cons_of_mem i hj))
    by_cases hb : ms.getD i 0 = 1 <;>
      simp [receiverMeas, pyGet_eq_getD ms i (hms ▸ hi), hb, applyH, hi, ih,
        measurementOps, -List.getD_eq_getElem?_getD]

/-- For equal-length inputs, `make_bb84_circ` succeeds and its
instruction list is: the encoding operations for qubits 0..N-1 in
ascending order, a barrier, the measurement-rotation operations for
qubits 0..N-1 in ascending order, a barrier, and the full measurement. -/
lemma make_bb84_circ_eq (N : Nat) (st bs ms : List Nat) (hst : st.length = N)
    (hbs : bs.length = N) (hms : ms.length = N) :
    make_bb84_circ st bs ms =
      Except.ok ⟨N,
        ((List.range N).flatMap fun i => encodingOps (st.getD i 0) (bs.getD i 0) i)
          ++ [Instr.barrier]
          ++ ((List.range N).flatMap fun i => measurementOps (ms.getD i 0) i)
          ++ [Instr.barrier, Instr.measureAll]⟩ := by
  have hp := senderPrep_eq N st bs hst hbs (List.range N)
    (fun i hi => List.mem_range.mp hi)
  have hm := receiverMeas_eq N ms hms (List.range N)
    (fun i hi => List.mem_range.mp hi)
  simp [make_bb84_circ, hst, hbs, hms, hp, hm]

/-- The sifting loop over indices in range of all three inputs succeeds
and keeps exactly the outcome bits at basis-agreement positions, in index
order. -/
lemma siftLoop_eq (ab bb tk : List Nat) :
    ∀ idxs : List Nat, (∀ i ∈ idxs, i < ab.length) → (∀ i ∈ idxs, i < bb.length) →
      (∀ i ∈ idxs, i < tk.length) →
      siftLoop ab bb tk idxs =
        Except.ok ((idxs.filter fun i => ab.getD i 0 == bb.getD i 0).map
          fun i => tk.getD i 0)
  | [], _, _, _ => by simp [siftLoop]
  | i :: rest, ha, hb, ht => by
    have hia := ha i (List.mem_cons_self i rest)
    have hib := hb i (List.mem_cons_self i rest)
    have hit := ht i (List.mem_cons_self i rest)
    have ih := siftLoop_eq ab bb tk rest
      (fun j hj => ha j (List.mem_cons_of_mem i hj))
      (fun j hj => hb j (List.mem_cons_of_mem i hj))
      (fun j hj => ht j (List.mem_cons_of_mem i hj))
    by_cases hab : ab.getD i 0 = bb.getD i 0 <;>
      simp [siftLoop, pyGet_eq_getD ab i hia, pyGet_eq_getD bb i hib,
        pyGet_eq_getD tk i hit, hab, ih, -List.getD_eq_getElem?_getD]

/-- Mapping `getD` over the index range of a list reproduces the list. -/
lemma map_getD_range (xs : List Nat) :
    (List.range xs.length).map (fun i => xs.getD i 0) = xs := by
  apply List.ext_getElem?
  intro i
  by_cases hi : i < xs.length
  · simp [List.getElem?_map, List.getElem?_range hi, List.getD_eq_getElem?_getD,
      List.getElem?_eq_getElem hi]
  · simp [List.getElem?_map, List.getElem?_eq_none (Nat.le_of_not_lt hi),
      List.getElem?_range]
    omega

/-- Elements of a per-qubit encoding sequence at an in-range qubit index
only target qubits below `N`. -/
lemma idxOk_encodingOps (N s b i : Nat) (hi : i < N) :
    ∀ g ∈ encodingOps s b i, idxOk N g = true := by
  intro g hg
  by_cases hs : s = 1 <;> by_cases hb : b = 1 <;>
    simp [encodingOps, hs, hb] at hg <;>
    first
    | (rcases hg with hg | hg <;> subst hg <;> simp [idxOk, hi])
    | (subst hg; simp [idxOk, hi])

/-- Elements of a per-qubit measurement-rotation sequence at an in-range
qubit index only target qubits below `N`. -/
lemma idxOk_measurementOps (N b i : Nat) (hi : i < N) :
    ∀ g ∈ measurementOps b i, idxOk N g = true := by
  intro g hg
  by_cases hb : b = 1 <;> simp [measurementOps, hb] at hg
  subst hg; simp [idxOk, hi]

/-- Keys made of bits have complementary zero and one counts. -/
lemma count_zero_add_count_one : ∀ key : List Nat,
    (∀ b ∈ key, b = 0 ∨ b = 1) → key.count 0 + key.count 1 = key.length
  | [], _ => rfl
  | x :: xs, hbits => by
    have hx := hbits x (List.mem_cons_self x xs)
    have ih := count_zero_add_count_one xs
      (fun b hb => hbits b (List.mem_cons_of_mem x hb))
    rcases hx with h | h <;> subst h <;> simp [List.count_cons, ih] <;> omega

/-! ## Claim theorems -/

/-- C1: for equal-length inputs of length `N`, `sift` returns the key
whose bits are, in ascending index order, the outcome bits at exactly the
indices where the sender's and receiver's bases agree; in particular its
length is the number of agreeing indices and its `k`-th bit is the
outcome at the `k`-th agreeing index. -/
theorem sift_keeps_agreeing_indices (N : Nat) (senderBasis receiverBasis outcome : List Nat)
    (h1 : senderBasis.length = N) (h2 : receiverBasis.length = N)
    (h3 : outcome.length = N) :
    sift N senderBasis receiverBasis outcome =
      Except.ok (((List.range N).filter fun i =>
        senderBasis.getD i 0 == receiverBasis.getD i 0).map fun i => outcome.getD i 0) := by
  exact siftLoop_eq senderBasis receiverBasis outcome (List.range N)
    (fun i hi => h1 ▸ List.mem_range.mp hi)
    (fun i hi => h2 ▸ List.mem_range.mp hi)
    (fun i hi => h3 ▸ List.mem_range.mp hi)

/-- Witness for C1: the spec's concrete scenario — bases agree at indices
0 and 2, outcome `[0,1,1,1]`, sifted key `[0,1]`. -/
theorem sift_keeps_agreeing_indices_witness :
    sift 4 [0, 0, 1, 1] [0, 1, 1, 0] [0, 1, 1, 1] = Except.ok [0, 1] := by
  rw [sift_keeps_agreeing_indices 4 [0, 0, 1, 1] [0, 1, 1, 0] [0, 1, 1, 1] rfl rfl rfl]
  rfl

/-- C2: the per-qubit encoding operation sequence is empty for `(0,0)`,
a single X for `(1,0)`, a single H for `(0,1)`, and X followed by H for
`(1,1)`. -/
theorem encodingOps_table (q : Nat) :
    encodingOps 0 0 q = [] ∧ encodingOps 1 0 q = [Instr.x q] ∧
    encodingOps 0 1 q = [Instr.h q] ∧ encodingOps 1 1 q = [Instr.x q, Instr.h q] :=
  ⟨rfl, rfl, rfl, rfl⟩

/-- C3: for equal-length inputs of length `N`, the built circuit is, in
order: the per-qubit encoding operations for qubits `0..N-1` ascending, a
barrier, a single H on qubit `i` exactly when `receiverBasis[i] = 1` for
`i = 0..N-1` ascending, a barrier, and one full measurement of all `N`
qubits. -/
theorem make_bb84_circ_structure (N : Nat) (senderState senderBasis receiverBasis : List Nat)
    (h1 : senderState.length = N) (h2 : senderBasis.length = N)
    (h3 : receiverBasis.length = N) :
    make_bb84_circ senderState senderBasis receiverBasis =
      Except.ok ⟨N,
        ((List.range N).flatMap fun i =>
            encodingOps (senderState.getD i 0) (senderBasis.getD i 0) i)
          ++ [Instr.barrier]
          ++ ((List.range N).flatMap fun i => measurementOps (receiverBasis.getD i 0) i)
          ++ [Instr.barrier, Instr.measureAll]⟩ :=
  make_bb84_circ_eq N senderState senderBasis receiverBasis h1 h2 h3

/-- Witness for C3: a concrete 2-qubit circuit. -/
theorem make_bb84_circ_structure_witness :
    make_bb84_circ [0, 1] [0, 1] [1, 0] =
      Except.ok ⟨2, [Instr.x 1, Instr.h 1, Instr.barrier, Instr.h 0,
        Instr.barrier, Instr.measureAll]⟩ := by
  rw [make_bb84_circ_structure 2 [0, 1] [0, 1] [1, 0] rfl rfl rfl]
  rfl

/-- C4: the outcome string consumed by the sifter (the counts key of the
bit-reversed circuit) is indexed identically to the basis strings: its
bit at index `i` is the measured bit of qubit `i`, for every `i` below
`n`. -/
theorem temp_key_indexed_like_bases (n : Nat) (m : Nat → Nat) :
    temp_key n m = (List.range n).map m := by
  unfold temp_key countsKey
  apply List.ext_getElem?
  intro i
  by_cases hi : i < n
  · have hlen : i < (List.range n).length := by simpa using hi
    have hrev : ((List.range n).reverse)[i]? = (List.range n)[n - 1 - i]? := by
      have h := List.getElem?_reverse hlen
      simpa using h
    have harg : n - 1 - (n - 1 - i) = i := by omega
    rw [List.getElem?_map, hrev, List.getElem?_range (by omega : n - 1 - i < n),
      List.getElem?_map, List.getElem?_range hi]
    simp [harg]
  · have h1 : ((List.range n).reverse.map fun q => m (n - 1 - q))[i]? = none := by
      apply List.getElem?_eq_none
      simpa using Nat.le_of_not_lt hi
    have h2 : ((List.range n).map m)[i]? = none := by
      apply List.getElem?_eq_none
      simpa using Nat.le_of_not_lt hi
    rw [h1, h2]

/-- Counterexample to C5: with basis strings of length 3 and an outcome
of length 4, the sifting loop returns a key instead of failing. -/
theorem sift_length_mismatch_no_error :
    sift 3 [0, 1, 0] [0, 0, 0] [1, 1, 1, 1] = Except.ok [1, 1] := rfl

/-- Amended C5: the sifting loop performs no length validation — whenever
every index below the loop bound is within range of all three inputs, it
returns a key, even if the inputs' lengths differ. -/
theorem sift_no_length_validation (N : Nat) (alice_basis bob_basis tk : List Nat)
    (ha : N ≤ alice_basis.length) (hb : N ≤ bob_basis.length)
    (ht : N ≤ tk.length) :
    ∃ key, sift N alice_basis bob_basis tk = Except.ok key :=
  ⟨_, siftLoop_eq alice_basis bob_basis tk (List.range N)
    (fun i hi => by have := List.mem_range.mp hi; omega)
    (fun i hi => by have := List.mem_range.mp hi; omega)
    (fun i hi => by have := List.mem_range.mp hi; omega)⟩

/-- Witness for amended C5: mismatched lengths 2, 2 and 3 still yield a
key. -/
theorem sift_no_length_validation_witness :
    ∃ key, sift 2 [0, 1] [1, 1] [0, 0, 1] = Except.ok key :=
  sift_no_length_validation 2 [0, 1] [1, 1] [0, 0, 1]
    (by decide) (by decide) (by decide)

/-- Counterexample to C6: requesting a bit string of length 0 succeeds
with the empty bit string instead of failing. -/
theorem randint2_zero_ok : randint2 (fun _ => 0) 0 = Except.ok [] := rfl

/-- Amended C6: the random bit-string generation fails with `ValueError`
(the spec's InvalidArgument) for every negative requested length, while a
requested length of 0 succeeds and returns the empty bit string. -/
theorem randint2_negative_error (rng : Nat → Nat) (size : Int) (hneg : size < 0) :
    randint2 rng size = Except.error Err.valueError ∧
    randint2 rng 0 = Except.ok [] := by
  constructor
  · simp [randint2, hneg]
  · rfl

/-- Witness for amended C6: length -1 fails, length 0 yields the empty
string. -/
theorem randint2_negative_error_witness :
    randint2 (fun _ => 0) (-1) = Except.error Err.valueError ∧
    randint2 (fun _ => 0) 0 = Except.ok [] :=
  randint2_negative_error (fun _ => 0) (-1) (by decide)

/-- Counterexample to C7: a state bit of 2 (outside {0,1}) is silently
accepted — the encoding step returns the empty operation sequence instead
of failing. -/
theorem encodingOps_invalid_bit_no_error : encodingOps 2 0 0 = [] := rfl

/-- Amended C7: values outside {0,1} are not rejected; every state or
basis value other than 1 behaves exactly like 0 in the encoding and
measurement-rotation steps — each slot independently, whatever the other
bit is — and no error is raised. -/
theorem invalid_bits_behave_like_zero (s b q : Nat) :
    (s ≠ 1 → encodingOps s b q = encodingOps 0 b q) ∧
    (b ≠ 1 → encodingOps s b q = encodingOps s 0 q ∧
      measurementOps b q = measurementOps 0 q) := by
  constructor
  · intro hs
    simp [encodingOps, hs]
  · intro hb
    constructor
    · simp [encodingOps, hb]
    · simp [measurementOps, hb]

/-- Witness for amended C7, exercising the mixed cases: state bit 2 with
basis bit 1 behaves like state bit 0, and state bit 1 with basis bit 3
behaves like basis bit 0. -/
theorem invalid_bits_behave_like_zero_witness :
    encodingOps 2 1 0 = encodingOps 0 1 0 ∧
    encodingOps 1 3 0 = encodingOps 1 0 0 ∧
    measurementOps 3 0 = measurementOps 0 0 :=
  ⟨(invalid_bits_behave_like_zero 2 1 0).1 (by decide),
   ((invalid_bits_behave_like_zero 1 3 0).2 (by decide)).1,
   ((invalid_bits_behave_like_zero 1 3 0).2 (by decide)).2⟩

/-- C8: for every key made of bits (including the empty key), the
summary's zero count plus its one count equals its length, and the empty
key's report is all zeroes. -/
theorem summarize_counts (key : List Nat) (hbits : ∀ b ∈ key, b = 0 ∨ b = 1) :
    (summarize key).zeroCount + (summarize key).oneCount = (summarize key).length ∧
    summarize [] = ⟨0, 0, 0⟩ :=
  ⟨count_zero_add_count_one key hbits, rfl⟩

/-- Witness for C8: the key `[0,1,1]` reports 1 zero and 2 ones. -/
theorem summarize_counts_witness :
    (summarize [0, 1, 1]).zeroCount + (summarize [0, 1, 1]).oneCount =
      (summarize [0, 1, 1]).length ∧ summarize [] = ⟨0, 0, 0⟩ :=
  summarize_counts [0, 1, 1] (by decide)

/-- C9: when the two basis strings agree at every position and the
outcome has the same length, `sift` returns the full outcome string
unchanged and in the same order. -/
theorem sift_all_bases_agree (N : Nat) (senderBasis receiverBasis outcome : List Nat)
    (h1 : senderBasis.length = N) (h2 : receiverBasis.length = N)
    (h3 : outcome.length = N)
    (hagree : ∀ i, i < N → senderBasis.getD i 0 = receiverBasis.getD i 0) :
    sift N senderBasis receiverBasis outcome = Except.ok outcome := by
  have h := siftLoop_eq senderBasis receiverBasis outcome (List.range N)
    (fun i hi => h1 ▸ List.mem_range.mp hi)
    (fun i hi => h2 ▸ List.mem_range.mp hi)
    (fun i hi => h3 ▸ List.mem_range.mp hi)
  rw [sift] at *
  rw [h]
  have hfil : (List.range N).filter
      (fun i => senderBasis.getD i 0 == receiverBasis.getD i 0) = List.range N := by
    apply List.filter_eq_self.mpr
    intro a ha
    simpa using hagree a (List.mem_range.mp ha)
  rw [hfil]
  have hmap := map_getD_range outcome
  rw [h3] at hmap
  rw [hmap]

/-- Witness for C9: identical bases of length 2 return the outcome
`[1,0]` unchanged. -/
theorem sift_all_bases_agree_witness :
    sift 2 [0, 1] [0, 1] [1, 0] = Except.ok [1, 0] :=
  sift_all_bases_agree 2 [0, 1] [0, 1] [1, 0] rfl rfl rfl (fun _ _ => rfl)

/-- C10: for equal-length inputs of positive length `N`, circuit
construction succeeds, the circuit has exactly `N` qubits, and every gate
targets a qubit index strictly below `N`. -/
theorem make_bb84_circ_total (N : Nat) (senderState senderBasis receiverBasis : List Nat)
    (h1 : senderState.length = N) (h2 : senderBasis.length = N)
    (h3 : receiverBasis.length = N) (_hpos : 0 < N) :
    ∃ c, make_bb84_circ senderState senderBasis receiverBasis = Except.ok c ∧
      c.numQubits = N ∧ ∀ g ∈ c.instrs, idxOk N g = true := by
  refine ⟨_, make_bb84_circ_eq N senderState senderBasis receiverBasis h1 h2 h3, rfl, ?_⟩
  intro g hg
  simp only [List.mem_append, List.mem_flatMap, List.mem_range, List.mem_cons,
    List.mem_singleton, List.not_mem_nil, or_false] at hg
  rcases hg with ((⟨i, hiN, hgi⟩ | hbar) | ⟨i, hiN, hgi⟩) | hbar | hmeas
  · exact idxOk_encodingOps N _ _ i hiN g hgi
  · subst hbar; rfl
  · exact idxOk_measurementOps N _ i hiN g hgi
  · subst hbar; rfl
  · subst hmeas; rfl

/-- Witness for C10: a concrete 1-qubit construction succeeds with all
gate indices in range. -/
theorem make_bb84_circ_total_witness :
    ∃ c, make_bb84_circ [1] [1] [1] = Except.ok c ∧ c.numQubits = 1 ∧
      ∀ g ∈ c.instrs, idxOk 1 g = true :=
  make_bb84_circ_total 1 [1] [1] [1] rfl rfl rfl (by decide)

end BB84
